import Mathlib

/-!
Verification development for the hatch-generator repository.

The C++ core (`src/geometry.cpp`, `src/geometry.h`, `src/svg_writer.cpp`) is shallowly
embedded below.  C++ `double` values are modelled as exact rationals (`ℚ`); the
`EPS = 1e-7` tolerance of the source is kept as the exact rational `1/10^7`.  The
`while` sweep loop of `generateHatch` is modelled as a step function iterated on
explicit fuel; an out-of-bounds `std::vector` access of the source (reading
`intersections.front()` / `intersections[1]` past the size, or `erase` with an
uninitialized index) is modelled as an explicit crash outcome.
-/

namespace geometry

/-- `EPS` from geometry.h: epsilon for floating point comparisons (1e-7). -/
def EPS : ℚ := 1 / 10000000

/-- `Point`: a 2D point with x and y coordinates (geometry.h). -/
structure Point where
  x : ℚ
  y : ℚ
  deriving DecidableEq, Repr

/-- `Vector`: a 2D vector (geometry.h). -/
structure Vector where
  x : ℚ
  y : ℚ
  deriving DecidableEq, Repr

/-- `Vector(const Point&, const Point&)`: vector from p1 to p2 (p2 - p1). -/
def Vector.ofPoints (p1 p2 : Point) : Vector :=
  ⟨p2.x - p1.x, p2.y - p1.y⟩

/-- `Point::operator+(const Vector&)`: component-wise sum. -/
def Point.add (p : Point) (v : Vector) : Point :=
  ⟨p.x + v.x, p.y + v.y⟩

/-- `Vector::operator*(double)`: scalar multiple. -/
def Vector.smul (v : Vector) (c : ℚ) : Vector :=
  ⟨v.x * c, v.y * c⟩

/-- `Line`: a line in general form a·x + b·y + c = 0 (geometry.h). -/
structure Line where
  a : ℚ
  b : ℚ
  c : ℚ
  deriving DecidableEq, Repr

/-- `Line(const Point&, const Point&)`:
`a = p1.y - p2.y`, `b = p2.x - p1.x`, `c = p1.x*p2.y - p2.x*p1.y`. -/
def Line.through (p1 p2 : Point) : Line :=
  ⟨p1.y - p2.y, p2.x - p1.x, p1.x * p2.y - p2.x * p1.y⟩

/-- `Line(const Vector&, const Point&)`: line with normal `norm` through `p`:
`a = norm.x`, `b = norm.y`, `c = -norm.x*p.x - norm.y*p.y`. -/
def Line.ofNorm (norm : Vector) (p : Point) : Line :=
  ⟨norm.x, norm.y, -norm.x * p.x - norm.y * p.y⟩

/-- `Segment`: two endpoints plus the line through them (geometry.h). -/
structure Segment where
  a : Point
  b : Point
  line : Line
  deriving DecidableEq, Repr

/-- `Segment(const Point&, const Point&)`: stores the endpoints and `Line(p1, p2)`. -/
def Segment.mk' (p1 p2 : Point) : Segment :=
  ⟨p1, p2, Line.through p1 p2⟩

/-- `Rectangle`: four corner points (`std::array<Point, 4> points`);
field `pI` models `points[I]`. -/
structure Rectangle where
  p0 : Point
  p1 : Point
  p2 : Point
  p3 : Point
  deriving DecidableEq, Repr

/-- `Rectangle::toSegments` (geometry.cpp lines 26-40): first
`emplace_back(points[0], points[size-1])`, then `emplace_back(points[i], points[i+1])`
for `i = 0, 1, 2` (the loop unrolled at its fixed bound 4). -/
def Rectangle.toSegments (r : Rectangle) : List Segment :=
  [Segment.mk' r.p0 r.p3, Segment.mk' r.p0 r.p1, Segment.mk' r.p1 r.p2,
   Segment.mk' r.p2 r.p3]

/-- `crossProduct` (geometry.cpp): v1.x*v2.y - v1.y*v2.x. -/
def crossProduct (v1 v2 : Vector) : ℚ :=
  v1.x * v2.y - v1.y * v2.x

/-- `dotProduct` (geometry.cpp): v1.x*v2.x + v1.y*v2.y. -/
def dotProduct (v1 v2 : Vector) : ℚ :=
  v1.x * v2.x + v1.y * v2.y

/-- `distance2` (geometry.cpp): squared Euclidean distance. -/
def distance2 (q1 q2 : Point) : ℚ :=
  (q1.x - q2.x) * (q1.x - q2.x) + (q1.y - q2.y) * (q1.y - q2.y)

/-- `normOf` (geometry.cpp): the normal vector (a, b) of a line. -/
def normOf (l : Line) : Vector :=
  ⟨l.a, l.b⟩

/-- `isLinesSameOrParallel` (geometry.cpp lines 62-69):
`|crossProduct(normOf l1, normOf l2)| < EPS`. -/
def isLinesSameOrParallel (l1 l2 : Line) : Bool :=
  decide (|crossProduct (normOf l1) (normOf l2)| < EPS)

/-- `linesIntersection` (geometry.cpp lines 71-81): Cramer's rule,
`d = l1.a*l2.b - l2.a*l1.b`, `dx = l1.b*l2.c - l2.b*l1.c`,
`dy = l1.c*l2.a - l2.c*l1.a`, result `(dx/d, dy/d)`. -/
def linesIntersection (l1 l2 : Line) : Point :=
  ⟨(l1.b * l2.c - l2.b * l1.c) / (l1.a * l2.b - l2.a * l1.b),
   (l1.c * l2.a - l2.c * l1.a) / (l1.a * l2.b - l2.a * l1.b)⟩

/-- `isInSegment` (geometry.cpp lines 83-93):
`|crossProduct(AB, AP)| < EPS && dotProduct(AB, AP) > 0 && dotProduct(AB, PB) > 0`
with `AB = Vector(s.a, s.b)`, `AP = Vector(s.a, p)`, `PB = Vector(p, s.b)`. -/
def isInSegment (p : Point) (s : Segment) : Bool :=
  decide (|crossProduct (Vector.ofPoints s.a s.b) (Vector.ofPoints s.a p)| < EPS) &&
  decide (0 < dotProduct (Vector.ofPoints s.a s.b) (Vector.ofPoints s.a p)) &&
  decide (0 < dotProduct (Vector.ofPoints s.a s.b) (Vector.ofPoints p s.b))

/-- Value of a line's equation `a·x + b·y + c` at a point. -/
def lineEval (l : Line) (p : Point) : ℚ :=
  l.a * p.x + l.b * p.y + l.c

/-! ### The sweep loop of `generateHatch` (geometry.cpp lines 95-178) -/

/-- The intersection-collecting loop (geometry.cpp lines 117-123): for each
rectangle segment whose line is not `isLinesSameOrParallel` to the hatch line,
collect `linesIntersection(segment.line, hatchLine)`, in segment order. -/
def collectIntersections (segs : List Segment) (hatchLine : Line) : List Point :=
  segs.filterMap fun s =>
    if isLinesSameOrParallel s.line hatchLine then none
    else some (linesIntersection s.line hatchLine)

/-- The index pairs (i, j), i < j, visited by the nested farthest-pair loops
(geometry.cpp lines 132-145) over a vector of size 4, in visit order. -/
def scanPairs : List (Nat × Nat) :=
  [(0, 1), (0, 2), (0, 3), (1, 2), (1, 3), (2, 3)]

/-- Squared distance between the entries of `pts` at an index pair. -/
def pairDist (pts : List Point) (ij : Nat × Nat) : ℚ :=
  distance2 (pts.getD ij.1 ⟨0, 0⟩) (pts.getD ij.2 ⟨0, 0⟩)

/-- One step of the farthest-pair scan: the body
`if (maxDistance2 < d) { maxDistance2 = d; farthest1 = i; farthest2 = j; }`.
The `Option` component is `none` while `farthest1`/`farthest2` are still
uninitialized. -/
def scanStep (pts : List Point) (st : ℚ × Option (Nat × Nat)) (ij : Nat × Nat) :
    ℚ × Option (Nat × Nat) :=
  if st.1 < pairDist pts ij then (pairDist pts ij, some ij) else st

/-- The full farthest-pair scan (geometry.cpp lines 129-145), starting from
`maxDistance2 = 0` and uninitialized indices. -/
def farthestScan (pts : List Point) : ℚ × Option (Nat × Nat) :=
  scanPairs.foldl (scanStep pts) (0, none)

/-- The 4-intersection reduction (geometry.cpp lines 127-150): when exactly 4
intersections were collected, run the farthest-pair scan and erase index
`farthest2` then index `farthest1`.  If the scan never assigned the indices
(all pairwise distances 0), the erases read uninitialized values: modelled as
`none`. -/
def reduce4 (pts : List Point) : Option (List Point) :=
  if pts.length = 4 then
    match (farthestScan pts).2 with
    | some (f1, f2) => some ((pts.eraseIdx f2).eraseIdx f1)
    | none => none
  else some pts

/-- The containment check (geometry.cpp lines 153-162): whether any rectangle
segment contains the point (`break` on the first hit). -/
def containsAny (segs : List Segment) (p : Point) : Bool :=
  segs.any fun s => isInSegment p s

/-- Outcome of one probe position of the sweep loop. -/
inductive ProbeRes where
  | ub
  | miss
  | hit (p q : Point)
  deriving DecidableEq, Repr

/-- One probe of the sweep loop body (geometry.cpp lines 111-162): build the
hatch line through `pt` with normal `hn`, collect intersections, reduce 4 to 2,
then read `intersections.front()` and — when some segment contains it —
`intersections[1]`.  `ub` marks the undefined behaviour of the source:
`front()` on an empty vector, `[1]` on a one-element vector, or the
uninitialized-index erases of the reduction step. -/
def probe (segs : List Segment) (hn : Vector) (pt : Point) : ProbeRes :=
  match reduce4 (collectIntersections segs (Line.ofNorm hn pt)) with
  | none => .ub
  | some [] => .ub
  | some [p] => if containsAny segs p then .ub else .miss
  | some (p :: q :: _) => if containsAny segs p then .hit p q else .miss

/-- The mutable state of the sweep loop: `point`, `hatchNorm` (negated once at
the direction flip), and the `forward` / `isContinue` / `firstIter` flags,
plus the output vector `res`. -/
structure SweepState where
  point : Point
  hn : Vector
  forward : Bool
  isContinue : Bool
  firstIter : Bool
  res : List Segment
  deriving DecidableEq, Repr

/-- One iteration of the `while (forward || isContinue)` body
(geometry.cpp lines 109-175), assuming the loop condition holds.
In the `miss` case the flip `if (!isContinue && forward && !firstIter)`
(lines 165-171) resets `point` to `start` (= `rect.points.front()`), negates
the hatch normal and forces continuation; line 174 then advances `point` by
the (possibly negated) hatch normal.  `none` is the out-of-bounds crash. -/
def sweepStep (segs : List Segment) (start : Point) (s : SweepState) :
    Option SweepState :=
  match probe segs s.hn s.point with
  | .ub => none
  | .hit p q =>
      some ⟨s.point.add s.hn, s.hn, s.forward, true, false,
            s.res ++ [Segment.mk' p q]⟩
  | .miss =>
      if s.forward && !s.firstIter then
        some ⟨(start.add (s.hn.smul (-1))), s.hn.smul (-1), false, true, false, s.res⟩
      else
        some ⟨s.point.add s.hn, s.hn, s.forward, false, false, s.res⟩

/-- Result of running the sweep loop on explicit fuel. -/
inductive RunResult where
  | done (res : List Segment)
  | oobCrash
  | outOfFuel
  deriving DecidableEq, Repr

/-- The sweep loop: test `forward || isContinue`, run one body iteration,
repeat.  Fuel only bounds the number of iterations; `outOfFuel` is never the
mathematical result of the source loop, and `oobCrash` marks the source's
undefined behaviour. -/
def sweepRun (segs : List Segment) (start : Point) : Nat → SweepState → RunResult
  | 0, s => if s.forward || s.isContinue then .outOfFuel else .done s.res
  | n + 1, s =>
      if s.forward || s.isContinue then
        match sweepStep segs start s with
        | none => .oobCrash
        | some s2 => sweepRun segs start n s2
      else .done s.res

/-- Initial state of the sweep (geometry.cpp lines 103-107): probe point at
`rect.points.front()`, `forward = true`, `isContinue = false`, `firstIter = true`. -/
def initState (start : Point) (hn : Vector) : SweepState :=
  ⟨start, hn, true, false, true, []⟩

/-- Model of `generateHatch` (geometry.cpp lines 95-178).  The C++ computes
`hatchNorm = Vector(sin(rad), cos(rad)) * step` from the angle in degrees; here
the already-scaled hatch normal is the parameter `hatchNorm` (for angle = 0 the
C++ trigonometry is exact: `sin 0 = 0`, `cos 0 = 1`, so `hatchNorm = (0, step)`),
and the while loop runs on explicit fuel. -/
def generateHatch (rect : Rectangle) (hatchNorm : Vector) (fuel : Nat) : RunResult :=
  sweepRun rect.toSegments rect.p0 fuel (initState rect.p0 hatchNorm)

/-! ### Quantities used to bound the sweep (not part of the source; they only
appear in theorem statements about the source's loop) -/

/-- Dot product of a vector with a point's coordinate pair. -/
def dotPoint (v : Vector) (p : Point) : ℚ :=
  v.x * p.x + v.y * p.y

/-- Upper bound on `dotPoint hn p` over the points `p` that `isInSegment`
accepts for a (nondegenerate) segment `s`. -/
def edgeBound (hn : Vector) (s : Segment) : ℚ :=
  dotPoint hn s.a + |dotProduct (Vector.ofPoints s.a s.b) hn| +
    EPS * |crossProduct (Vector.ofPoints s.a s.b) hn| /
      dotProduct (Vector.ofPoints s.a s.b) (Vector.ofPoints s.a s.b)

/-- Maximum of `edgeBound` over the nondegenerate segments, folded from `init`. -/
def hiBound (segs : List Segment) (hn : Vector) (init : ℚ) : ℚ :=
  segs.foldl (fun acc s =>
    if 0 < distance2 s.a s.b then max acc (edgeBound hn s) else acc) init

/-- The first probe index (in units of `hn` from `start`) from which every
probe in direction `hn` is guaranteed to miss. -/
def missIndex (segs : List Segment) (hn : Vector) (start : Point) : Nat :=
  (⌈(hiBound segs hn (dotPoint hn start) - dotPoint hn start) /
      dotProduct hn hn⌉).toNat + 1

/-- Fuel sufficient for the whole sweep: forward phase, backward phase, slack. -/
def fuelBound (segs : List Segment) (hn : Vector) (start : Point) : Nat :=
  missIndex segs hn start + missIndex segs (hn.smul (-1)) start + 4

/-- Probe point after `k` steps of size `v` from `start` (the value of the
loop's `point` variable in a phase that has advanced `k` times by `v`). -/
def ptAt (start : Point) (v : Vector) (k : Nat) : Point :=
  start.add (v.smul (k : ℚ))

/-- Number of boundary edges whose line is not EPS-parallel to a hatch line
with normal `hn` (the parallelism test reads only the two normals, so it does
not depend on the probe point). -/
def nonParallelCount (segs : List Segment) (hn : Vector) : Nat :=
  segs.countP fun s => !isLinesSameOrParallel s.line (Line.ofNorm hn ⟨0, 0⟩)

/-- Strict convexity of the corner cycle: the four consecutive edge cross
products all positive or all negative. -/
def strictlyConvex (r : Rectangle) : Bool :=
  (decide (0 < crossProduct (Vector.ofPoints r.p0 r.p1) (Vector.ofPoints r.p1 r.p2)) &&
   decide (0 < crossProduct (Vector.ofPoints r.p1 r.p2) (Vector.ofPoints r.p2 r.p3)) &&
   decide (0 < crossProduct (Vector.ofPoints r.p2 r.p3) (Vector.ofPoints r.p3 r.p0)) &&
   decide (0 < crossProduct (Vector.ofPoints r.p3 r.p0) (Vector.ofPoints r.p0 r.p1))) ||
  (decide (crossProduct (Vector.ofPoints r.p0 r.p1) (Vector.ofPoints r.p1 r.p2) < 0) &&
   decide (crossProduct (Vector.ofPoints r.p1 r.p2) (Vector.ofPoints r.p2 r.p3) < 0) &&
   decide (crossProduct (Vector.ofPoints r.p2 r.p3) (Vector.ofPoints r.p3 r.p0) < 0) &&
   decide (crossProduct (Vector.ofPoints r.p3 r.p0) (Vector.ofPoints r.p0 r.p1) < 0))

/-! ### Concrete instances used by witnesses and counterexamples -/

/-- The square `[(0,0),(10,0),(10,10),(0,10)]` of the spec's testable property. -/
def squareTen : Rectangle :=
  ⟨⟨0, 0⟩, ⟨10, 0⟩, ⟨10, 10⟩, ⟨0, 10⟩⟩

/-- A strictly convex sliver quadrilateral all four of whose edge lines are
EPS-parallel to a vertical hatch normal (each edge has |slope| = 1e-8 < EPS). -/
def sliverQuad : Rectangle :=
  ⟨⟨-2, 0⟩, ⟨-1, 1 / 100000000⟩, ⟨0, 0⟩, ⟨-1, -1 / 100000000⟩⟩

/-- A near-collinear quadrilateral with exactly one edge line (the closing
edge, |slope| = 1.8e-7 ≥ EPS) not EPS-parallel to a vertical hatch normal. -/
def slimQuad : Rectangle :=
  ⟨⟨0, 0⟩, ⟨10, 6 / 100000000⟩, ⟨20, 12 / 100000000⟩, ⟨30, 18 / 100000000⟩⟩

/-- A fully collinear degenerate quadrilateral: all four corners on the x-axis,
so every edge line is parallel to a vertical hatch normal. -/
def collinearQuad : Rectangle :=
  ⟨⟨0, 0⟩, ⟨1, 0⟩, ⟨2, 0⟩, ⟨3, 0⟩⟩

end geometry

namespace svg

/-- `LineFormat` (svg_writer.h): the style tag of a segment collection. -/
inductive LineFormat where
  | CONTOUR
  | HATCH
  deriving DecidableEq, Repr

/-- `std::numeric_limits<double>::max()`: (2^53 - 1) · 2^971. -/
def dblMax : ℚ := (2 ^ 53 - 1) * 2 ^ 971

/-- `std::numeric_limits<double>::min()`: the smallest positive normal double,
2^(-1022).  This is a small POSITIVE number, not the lowest double. -/
def dblMin : ℚ := 1 / 2 ^ 1022

/-- The four bounding values computed by `SVGWriter::draw`. -/
structure Bounds where
  minX : ℚ
  minY : ℚ
  maxX : ℚ
  maxY : ℚ
  deriving DecidableEq, Repr

/-- The per-segment bounding-box update of `SVGWriter::draw`
(svg_writer.cpp lines 86-94). -/
def updBounds (bd : Bounds) (s : geometry.Segment) : Bounds :=
  ⟨min (min bd.minX s.a.x) s.b.x, min (min bd.minY s.a.y) s.b.y,
   max (max bd.maxX s.a.x) s.b.x, max (max bd.maxY s.a.y) s.b.y⟩

/-- The bounding-box loop of `SVGWriter::draw` (svg_writer.cpp lines 76-96)
over the tagged collections, with the source's initial values
`minX = minY = numeric_limits::max()` and `maxX = maxY = numeric_limits::min()`. -/
def drawBounds (collections : List (LineFormat × List geometry.Segment)) : Bounds :=
  collections.foldl (fun bd pr => pr.2.foldl updBounds bd)
    ⟨dblMax, dblMax, dblMin, dblMin⟩

/-- The uniform scale factor of `SVGWriter::draw` (svg_writer.cpp lines 98-102):
`min(width / (maxX - minX), height / (maxY - minY))`. -/
def drawScale (width height : ℚ)
    (collections : List (LineFormat × List geometry.Segment)) : ℚ :=
  min (width / ((drawBounds collections).maxX - (drawBounds collections).minX))
    (height / ((drawBounds collections).maxY - (drawBounds collections).minY))

end svg

/-! ## Helper lemmas -/

namespace geometry

lemma Point.ne_iff {p q : Point} : p ≠ q ↔ p.x ≠ q.x ∨ p.y ≠ q.y := by
  cases p; cases q
  simp only [Point.mk.injEq, ne_eq, not_and_or]

lemma endpoints_not_in_segment (s : Segment) :
    isInSegment s.a s = false ∧ isInSegment s.b s = false := by
  constructor <;> simp [isInSegment, Vector.ofPoints, dotProduct]

lemma between_in_segment (p1 p2 : Point) (t : ℚ) (hne : p1 ≠ p2)
    (ht0 : 0 < t) (ht1 : t < 1) :
    isInSegment ⟨p1.x + t * (p2.x - p1.x), p1.y + t * (p2.y - p1.y)⟩
      (Segment.mk' p1 p2) = true := by
  have hpos : 0 < (p2.x - p1.x) ^ 2 + (p2.y - p1.y) ^ 2 := by
    rcases Point.ne_iff.mp hne with h | h
    · have hx : 0 < (p2.x - p1.x) ^ 2 :=
        pow_two_pos_of_ne_zero (sub_ne_zero.mpr (Ne.symm h))
      nlinarith [sq_nonneg (p2.y - p1.y)]
    · have hy : 0 < (p2.y - p1.y) ^ 2 :=
        pow_two_pos_of_ne_zero (sub_ne_zero.mpr (Ne.symm h))
      nlinarith [sq_nonneg (p2.x - p1.x)]
  simp only [isInSegment, Segment.mk', Bool.and_eq_true, decide_eq_true_eq,
    Vector.ofPoints, crossProduct, dotProduct]
  refine ⟨⟨?_, ?_⟩, ?_⟩
  · have hz : (p2.x - p1.x) * (p1.y + t * (p2.y - p1.y) - p1.y) -
        (p2.y - p1.y) * (p1.x + t * (p2.x - p1.x) - p1.x) = 0 := by ring
    rw [hz]
    norm_num [EPS]
  · nlinarith
  · nlinarith

lemma linesIntersection_on_lines (l1 l2 : Line)
    (hd : l1.a * l2.b - l2.a * l1.b ≠ 0) :
    lineEval l1 (linesIntersection l1 l2) = 0 ∧
    lineEval l2 (linesIntersection l1 l2) = 0 := by
  unfold lineEval linesIntersection
  constructor <;> field_simp <;> ring

lemma sweepRun_done_mono (segs : List Segment) (start : Point) :
    ∀ n m (s : SweepState) (r : List Segment), n ≤ m →
      sweepRun segs start n s = .done r → sweepRun segs start m s = .done r := by
  intro n
  induction n with
  | zero =>
    intro m s r _ h0
    rw [sweepRun] at h0
    by_cases hc : (s.forward || s.isContinue) = true
    · simp [hc] at h0
    · cases m with
      | zero => rw [sweepRun]; simpa [hc] using h0
      | succ m => rw [sweepRun]; simp only [hc] at h0 ⊢; simpa using h0
  | succ n ih =>
    intro m s r hnm h0
    rw [sweepRun] at h0
    by_cases hc : (s.forward || s.isContinue) = true
    · simp only [hc, if_true] at h0
      cases m with
      | zero => omega
      | succ m =>
        rw [sweepRun]
        simp only [hc, if_true]
        cases hstep : sweepStep segs start s with
        | none => rw [hstep] at h0; simp at h0
        | some s2 =>
          rw [hstep] at h0
          exact ih m s2 r (by omega) h0
    · simp only [hc] at h0
      cases m with
      | zero => rw [sweepRun]; simp only [hc]; simpa using h0
      | succ m => rw [sweepRun]; simp only [hc]; simpa using h0

lemma distance2_nonneg (p q : Point) : 0 ≤ distance2 p q := by
  unfold distance2
  nlinarith [mul_self_nonneg (p.x - q.x), mul_self_nonneg (p.y - q.y)]

lemma distance2_eq_zero {p q : Point} (h : distance2 p q = 0) : p = q := by
  unfold distance2 at h
  have hx : (p.x - q.x) * (p.x - q.x) = 0 := by
    nlinarith [mul_self_nonneg (p.x - q.x), mul_self_nonneg (p.y - q.y)]
  have hy : (p.y - q.y) * (p.y - q.y) = 0 := by
    nlinarith [mul_self_nonneg (p.x - q.x), mul_self_nonneg (p.y - q.y)]
  have hx2 : p.x - q.x = 0 := mul_self_eq_zero.mp hx
  have hy2 : p.y - q.y = 0 := mul_self_eq_zero.mp hy
  cases p
  cases q
  simp only [Point.mk.injEq]
  dsimp at hx2 hy2
  constructor <;> linarith

lemma foldl_scanStep_isSome (pts : List Point) :
    ∀ (L : List (Nat × Nat)) (m : ℚ) (p : Nat × Nat),
      ∃ q, (L.foldl (scanStep pts) (m, some p)).2 = some q := by
  intro L
  induction L with
  | nil => intro m p; exact ⟨p, rfl⟩
  | cons ij L ih =>
    intro m p
    simp only [List.foldl_cons, scanStep]
    by_cases h : m < pairDist pts ij
    · simpa [h] using ih (pairDist pts ij) ij
    · simpa [h] using ih m p

lemma foldl_scanStep_of_le (pts : List Point) :
    ∀ (L : List (Nat × Nat)) (m : ℚ) (o : Option (Nat × Nat)),
      (∀ ij ∈ L, pairDist pts ij ≤ m) →
      L.foldl (scanStep pts) (m, o) = (m, o) := by
  intro L
  induction L with
  | nil => intro m o _; rfl
  | cons ij L ih =>
    intro m o h
    have hij : pairDist pts ij ≤ m := h ij (by simp)
    simp only [List.foldl_cons, scanStep, not_lt.mpr hij, if_false]
    exact ih m o fun p hp => h p (by simp [hp])

lemma foldl_scanStep_none (pts : List Point) :
    ∀ (L : List (Nat × Nat)) (m : ℚ),
      (L.foldl (scanStep pts) (m, none)).2 = none →
      ∀ ij ∈ L, pairDist pts ij ≤ m := by
  intro L
  induction L with
  | nil => intro m _ ij h; simp at h
  | cons ij L ih =>
    intro m hnone p hp
    by_cases h : m < pairDist pts ij
    · exfalso
      obtain ⟨q, hq⟩ := foldl_scanStep_isSome pts L (pairDist pts ij) ij
      rw [List.foldl_cons, scanStep, if_pos h] at hnone
      rw [hnone] at hq
      exact Option.noConfusion hq
    · rw [List.foldl_cons, scanStep, if_neg h] at hnone
      rcases List.mem_cons.mp hp with rfl | hp2
      · exact not_lt.mp h
      · exact ih m hnone p hp2

lemma foldl_scanStep_first_max (pts : List Point) :
    ∀ (L : List (Nat × Nat)) (m : ℚ) (o : Option (Nat × Nat)),
      (∃ ij ∈ L, m < pairDist pts ij) →
      ∃ L1 pf L2, L = L1 ++ pf :: L2 ∧
        L.foldl (scanStep pts) (m, o) = (pairDist pts pf, some pf) ∧
        (∀ ij ∈ L1, pairDist pts ij < pairDist pts pf) ∧
        (∀ ij ∈ L2, pairDist pts ij ≤ pairDist pts pf) ∧
        m < pairDist pts pf := by
  intro L
  induction L with
  | nil => intro m o h; simp at h
  | cons ij L ih =>
    intro m o hex
    by_cases hp : m < pairDist pts ij
    · by_cases hL : ∃ q ∈ L, pairDist pts ij < pairDist pts q
      · obtain ⟨L1, pf, L2, hsplit, hfold, hlt, hle, hm⟩ :=
          ih (pairDist pts ij) (some ij) hL
        refine ⟨ij :: L1, pf, L2, by rw [hsplit, List.cons_append], ?_, ?_, hle,
          lt_trans hp hm⟩
        · rw [List.foldl_cons, scanStep, if_pos hp]
          exact hfold
        · intro q hq
          rcases List.mem_cons.mp hq with rfl | hq2
          · exact hm
          · exact hlt q hq2
      · push_neg at hL
        refine ⟨[], ij, L, rfl, ?_, by simp, hL, hp⟩
        rw [List.foldl_cons, scanStep, if_pos hp]
        exact foldl_scanStep_of_le pts L (pairDist pts ij) (some ij) hL
    · have hex2 : ∃ q ∈ L, m < pairDist pts q := by
        obtain ⟨q, hq, hmq⟩ := hex
        rcases List.mem_cons.mp hq with rfl | hq2
        · exact absurd hmq hp
        · exact ⟨q, hq2, hmq⟩
      obtain ⟨L1, pf, L2, hsplit, hfold, hlt, hle, hm⟩ := ih m o hex2
      refine ⟨ij :: L1, pf, L2, by rw [hsplit, List.cons_append], ?_, ?_, hle, hm⟩
      · rw [List.foldl_cons, scanStep, if_neg hp]
        exact hfold
      · intro q hq
        rcases List.mem_cons.mp hq with rfl | hq2
        · exact lt_of_le_of_lt (not_lt.mp hp) hm
        · exact hlt q hq2

lemma collect_length (segs : List Segment) (hn : Vector) (pt : Point) :
    (collectIntersections segs (Line.ofNorm hn pt)).length =
      nonParallelCount segs hn := by
  induction segs with
  | nil => rfl
  | cons s segs ih =>
    unfold collectIntersections nonParallelCount at ih ⊢
    rw [List.filterMap_cons, List.countP_cons]
    by_cases hpar : isLinesSameOrParallel s.line (Line.ofNorm hn pt) = true
    · have hpar0 : isLinesSameOrParallel s.line (Line.ofNorm hn ⟨0, 0⟩) = true := hpar
      simp [hpar, hpar0, ih]
    · have hpar0 : ¬ isLinesSameOrParallel s.line (Line.ofNorm hn ⟨0, 0⟩) = true := hpar
      simp [hpar, hpar0, ih]

lemma foldl_scanStep_mem (pts : List Point) :
    ∀ (L : List (Nat × Nat)) (st : ℚ × Option (Nat × Nat)) (ij : Nat × Nat),
      (L.foldl (scanStep pts) st).2 = some ij → st.2 = some ij ∨ ij ∈ L := by
  intro L
  induction L with
  | nil => intro st ij h; exact Or.inl h
  | cons p L ih =>
    intro st ij h
    rw [List.foldl_cons] at h
    rcases ih (scanStep pts st p) ij h with h2 | h2
    · unfold scanStep at h2
      by_cases hf : st.1 < pairDist pts p
      · rw [if_pos hf] at h2
        simp only [Option.some.injEq] at h2
        exact Or.inr (by simp [h2.symm])
      · rw [if_neg hf] at h2
        exact Or.inl h2
    · exact Or.inr (List.mem_cons_of_mem p h2)

lemma farthestScan_res_mem (pts : List Point) (ij : Nat × Nat)
    (h : (farthestScan pts).2 = some ij) : ij ∈ scanPairs := by
  rcases foldl_scanStep_mem pts scanPairs (0, none) ij h with h2 | h2
  · exact Option.noConfusion h2
  · exact h2

end geometry

/-! ## Claim theorems -/

open geometry

/-- C2: `generateHatch` on the square `[(0,0),(10,0),(10,10),(0,10)]` with
angle = 0 (so the C++ hatch normal is exactly `(sin 0, cos 0) * 5 = (0, 5)`)
and step = 5 returns exactly one segment, the horizontal midline from `(0, 5)`
to `(10, 5)` — the coordinates are met exactly, hence within EPS.  The result
is stable for any fuel at least 20 (the loop really terminates with this
output, it does not run out of fuel). -/
theorem C2_square_single_midline :
    generateHatch squareTen ⟨0, 5⟩ 20 =
      .done [Segment.mk' ⟨0, 5⟩ ⟨10, 5⟩] ∧
    ∀ n, 20 ≤ n → generateHatch squareTen ⟨0, 5⟩ n =
      .done [Segment.mk' ⟨0, 5⟩ ⟨10, 5⟩] := by
  have h20 : generateHatch squareTen ⟨0, 5⟩ 20 =
      .done [Segment.mk' ⟨0, 5⟩ ⟨10, 5⟩] := by
    with_unfolding_all decide
  exact ⟨h20, fun n hn => sweepRun_done_mono _ _ 20 n _ _ hn h20⟩

/-- Witness for C2 at fuel 25. -/
theorem C2_square_single_midline_witness :
    generateHatch squareTen ⟨0, 5⟩ 25 =
      .done [Segment.mk' ⟨0, 5⟩ ⟨10, 5⟩] :=
  C2_square_single_midline.2 25 (by norm_num)

/-- C3: `isInSegment` implements the strict-interior policy: it returns false
at both endpoints of every segment, true at every point strictly between two
distinct endpoints (parameterized as `p1 + t·(p2 - p1)` with `0 < t < 1`), and
on the segment `((0,0),(10,0))` it returns false at `(0,0)` and `(10,0)` and
true at `(5,0)`. -/
theorem C3_isInSegment_strict_interior :
    (∀ s : Segment, isInSegment s.a s = false ∧ isInSegment s.b s = false) ∧
    (∀ p1 p2 : Point, ∀ t : ℚ, p1 ≠ p2 → 0 < t → t < 1 →
      isInSegment ⟨p1.x + t * (p2.x - p1.x), p1.y + t * (p2.y - p1.y)⟩
        (Segment.mk' p1 p2) = true) ∧
    (isInSegment ⟨0, 0⟩ (Segment.mk' ⟨0, 0⟩ ⟨10, 0⟩) = false ∧
     isInSegment ⟨10, 0⟩ (Segment.mk' ⟨0, 0⟩ ⟨10, 0⟩) = false ∧
     isInSegment ⟨5, 0⟩ (Segment.mk' ⟨0, 0⟩ ⟨10, 0⟩) = true) := by
  refine ⟨endpoints_not_in_segment, between_in_segment, ?_, ?_, ?_⟩ <;>
    with_unfolding_all decide

/-- Witness for C3: the universally quantified parts applied at concrete
inputs, hypotheses discharged there. -/
theorem C3_isInSegment_strict_interior_witness :
    isInSegment ⟨3, 4⟩ (Segment.mk' ⟨3, 4⟩ ⟨7, 8⟩) = false ∧
    isInSegment ⟨(0 : ℚ) + 1 / 2 * (10 - 0), (0 : ℚ) + 1 / 2 * (0 - 0)⟩
      (Segment.mk' ⟨0, 0⟩ ⟨10, 0⟩) = true :=
  ⟨(C3_isInSegment_strict_interior.1 (Segment.mk' ⟨3, 4⟩ ⟨7, 8⟩)).1,
   C3_isInSegment_strict_interior.2.1 ⟨0, 0⟩ ⟨10, 0⟩ (1 / 2)
     (by with_unfolding_all decide) (by norm_num) (by norm_num)⟩

/-- C4: for any two lines with nonzero determinant `l1.a*l2.b - l2.a*l1.b`
(the documented non-parallel precondition), the point computed by
`linesIntersection` satisfies both line equations exactly in the exact
rational arithmetic of this embedding. -/
theorem C4_linesIntersection_on_both_lines (l1 l2 : Line)
    (hd : l1.a * l2.b - l2.a * l1.b ≠ 0) :
    lineEval l1 (linesIntersection l1 l2) = 0 ∧
    lineEval l2 (linesIntersection l1 l2) = 0 :=
  linesIntersection_on_lines l1 l2 hd

/-- Witness for C4 at the lines x = 0 and y = 0 (determinant 1). -/
theorem C4_linesIntersection_on_both_lines_witness :
    lineEval ⟨1, 0, 0⟩ (linesIntersection ⟨1, 0, 0⟩ ⟨0, 1, 0⟩) = 0 ∧
    lineEval ⟨0, 1, 0⟩ (linesIntersection ⟨1, 0, 0⟩ ⟨0, 1, 0⟩) = 0 :=
  C4_linesIntersection_on_both_lines ⟨1, 0, 0⟩ ⟨0, 1, 0⟩ (by norm_num)

/-- C5 counterexample: on the square with hatch normal `(0, 5)` (angle 0,
step 5) the very first probe — at the starting corner `(0,0)` — finds no
candidate inside any boundary edge (it is a `miss`), and yet the sweep does
NOT terminate: it keeps iterating and returns the midline segment, so the
output is not empty.  This falsifies the claim that a first-probe failure
terminates the sweep immediately with no segments. -/
theorem C5_first_probe_miss_counterexample :
    probe squareTen.toSegments ⟨0, 5⟩ squareTen.p0 = .miss ∧
    generateHatch squareTen ⟨0, 5⟩ 20 =
      .done [Segment.mk' ⟨0, 5⟩ ⟨10, 5⟩] ∧
    [Segment.mk' (⟨0, 5⟩ : Point) ⟨10, 5⟩] ≠ ([] : List Segment) := by
  refine ⟨?_, ?_, ?_⟩ <;> with_unfolding_all decide

/-- C5 amended: when the very first probe (firstIter = true, forward phase)
finds no candidate in any edge, the sweep does not stop and does not flip:
the `firstIter` guard skips the direction-flip branch, and the loop advances
to the next probe position still in the forward phase (the new state has
`forward = true`, so the `while (forward || isContinue)` condition still
holds), with no segment emitted. -/
theorem C5_first_probe_miss_continues (segs : List Segment) (start : Point)
    (s : SweepState) (hfi : s.firstIter = true) (hfw : s.forward = true)
    (hm : probe segs s.hn s.point = .miss) :
    sweepStep segs start s =
      some ⟨s.point.add s.hn, s.hn, true, false, false, s.res⟩ := by
  simp [sweepStep, hm, hfi, hfw]

/-- Witness for C5 amended at the square's initial sweep state. -/
theorem C5_first_probe_miss_continues_witness :
    sweepStep squareTen.toSegments squareTen.p0
        (initState squareTen.p0 ⟨0, 5⟩) =
      some ⟨Point.add squareTen.p0 ⟨0, 5⟩, ⟨0, 5⟩, true, false, false, []⟩ :=
  C5_first_probe_miss_continues _ _ _ rfl rfl (by with_unfolding_all decide)

/-- C6 counterexample: on the square `[(0,0),(10,0),(10,10),(0,10)]` the
segments returned by `toSegments` are not the claimed list — the closing edge
is emitted as `(points[0], points[3])`, i.e. from `(0,0)` to `(0,10)`, not as
`(points[3], points[0])`. -/
theorem C6_toSegments_order_counterexample :
    squareTen.toSegments.map (fun s => (s.a, s.b)) ≠
      [((⟨0, 10⟩ : Point), (⟨0, 0⟩ : Point)), (⟨0, 0⟩, ⟨10, 0⟩),
       (⟨10, 0⟩, ⟨10, 10⟩), (⟨10, 10⟩, ⟨0, 10⟩)] := by
  with_unfolding_all decide

/-- C6 amended: `toSegments` returns exactly four segments, the closing edge
first but oriented as `(points[0], points[3])`, then `(points[0], points[1])`,
`(points[1], points[2])`, `(points[2], points[3])`. -/
theorem C6_toSegments_order_amended (r : Rectangle) :
    r.toSegments.map (fun s => (s.a, s.b)) =
      [(r.p0, r.p3), (r.p0, r.p1), (r.p1, r.p2), (r.p2, r.p3)] ∧
    r.toSegments.length = 4 :=
  ⟨rfl, rfl⟩

/-- C7 counterexample: on the square, corner `points[3] = (0,10)` never occurs
as a segment start and corner `points[0] = (0,0)` never occurs as a segment
end (it occurs twice as a start), refuting "each corner appears exactly once
as some segment's start point and exactly once as another segment's end
point". -/
theorem C7_roundtrip_counterexample :
    (squareTen.toSegments.map (fun s => s.a)).count ⟨0, 10⟩ = 0 ∧
    (squareTen.toSegments.map (fun s => s.b)).count ⟨0, 0⟩ = 0 ∧
    (squareTen.toSegments.map (fun s => s.a)).count ⟨0, 0⟩ = 2 := by
  refine ⟨?_, ?_, ?_⟩ <;> with_unfolding_all decide

/-- C7 amended: for a rectangle with pairwise distinct corners, `toSegments`
returns 4 segments and each corner appears exactly twice among the 8 endpoint
occurrences — but not once as a start and once as an end: `points[0]` occurs
twice as a start and never as an end, `points[3]` twice as an end and never as
a start, while `points[1]` and `points[2]` occur once each way. -/
theorem C7_roundtrip_amended (r : Rectangle) (h01 : r.p0 ≠ r.p1)
    (h02 : r.p0 ≠ r.p2) (h03 : r.p0 ≠ r.p3) (h12 : r.p1 ≠ r.p2)
    (h13 : r.p1 ≠ r.p3) (h23 : r.p2 ≠ r.p3) :
    ((r.toSegments.map (fun s => s.a) ++ r.toSegments.map (fun s => s.b)).count r.p0 = 2 ∧
     (r.toSegments.map (fun s => s.a) ++ r.toSegments.map (fun s => s.b)).count r.p1 = 2 ∧
     (r.toSegments.map (fun s => s.a) ++ r.toSegments.map (fun s => s.b)).count r.p2 = 2 ∧
     (r.toSegments.map (fun s => s.a) ++ r.toSegments.map (fun s => s.b)).count r.p3 = 2) ∧
    ((r.toSegments.map (fun s => s.a)).count r.p0 = 2 ∧
     (r.toSegments.map (fun s => s.a)).count r.p1 = 1 ∧
     (r.toSegments.map (fun s => s.a)).count r.p2 = 1 ∧
     (r.toSegments.map (fun s => s.a)).count r.p3 = 0) ∧
    ((r.toSegments.map (fun s => s.b)).count r.p0 = 0 ∧
     (r.toSegments.map (fun s => s.b)).count r.p1 = 1 ∧
     (r.toSegments.map (fun s => s.b)).count r.p2 = 1 ∧
     (r.toSegments.map (fun s => s.b)).count r.p3 = 2) := by
  refine ⟨⟨?_, ?_, ?_, ?_⟩, ⟨?_, ?_, ?_, ?_⟩, ⟨?_, ?_, ?_, ?_⟩⟩ <;>
    simp [Rectangle.toSegments, Segment.mk', List.count_cons, beq_iff_eq,
      h01, h02, h03, h12, h13, h23, h01.symm, h02.symm, h03.symm, h12.symm,
      h13.symm, h23.symm]

/-- Witness for C7 amended at the square (distinct corners). -/
theorem C7_roundtrip_amended_witness :
    (squareTen.toSegments.map (fun s => s.a) ++
      squareTen.toSegments.map (fun s => s.b)).count squareTen.p0 = 2 ∧
    (squareTen.toSegments.map (fun s => s.a)).count squareTen.p0 = 2 :=
  ⟨((C7_roundtrip_amended squareTen (by with_unfolding_all decide)
      (by with_unfolding_all decide) (by with_unfolding_all decide)
      (by with_unfolding_all decide) (by with_unfolding_all decide)
      (by with_unfolding_all decide)).1).1,
   ((C7_roundtrip_amended squareTen (by with_unfolding_all decide)
      (by with_unfolding_all decide) (by with_unfolding_all decide)
      (by with_unfolding_all decide) (by with_unfolding_all decide)
      (by with_unfolding_all decide)).2).1.1⟩

/-- C8 (code bug): `SVGWriter::draw` initializes `maxX`/`maxY` with
`std::numeric_limits<double>::min()`, the smallest POSITIVE normal double
(2^-1022), not the lowest double.  For the non-empty collection holding the
single all-negative segment from `(-5,-5)` to `(-1,-1)` the computed bounds
are `minX = minY = -5` (correct) but `maxX = maxY = 2^-1022` — a positive
number — while the greatest endpoint coordinate is `-1`.  So `draw` does not
compute the bounding box of the union of the segments when all coordinates
are negative. -/
theorem C8_draw_bounding_box_bug :
    svg.drawBounds [(svg.LineFormat.CONTOUR, [Segment.mk' ⟨-5, -5⟩ ⟨-1, -1⟩])] =
      ⟨-5, -5, svg.dblMin, svg.dblMin⟩ ∧
    svg.dblMin ≠ -1 ∧ (0 : ℚ) < svg.dblMin := by
  refine ⟨?_, ?_, ?_⟩ <;>
    norm_num [svg.drawBounds, svg.updBounds, svg.dblMax, svg.dblMin,
      Segment.mk', List.foldl, min_def, max_def]

/-- C9 counterexample: the claim "if fewer than two intersections are
collected, the access is out of bounds" fails.  On `slimQuad` with hatch
normal `(0, 1)`, at the first probe position `(0,0)` exactly ONE intersection
is collected (only the closing edge line is non-EPS-parallel), the single
candidate lies in no edge, and the probe is a plain `miss`: `front()` is read
in bounds on the one-element vector and `intersections[1]` is never read, so
no out-of-bounds access occurs. -/
theorem C9_reads_counterexample :
    nonParallelCount slimQuad.toSegments ⟨0, 1⟩ = 1 ∧
    collectIntersections slimQuad.toSegments (Line.ofNorm ⟨0, 1⟩ ⟨0, 0⟩) =
      [⟨0, 0⟩] ∧
    probe slimQuad.toSegments ⟨0, 1⟩ ⟨0, 0⟩ = .miss := by
  refine ⟨?_, ?_, ?_⟩ <;> with_unfolding_all decide

/-- C9 amended: the unguarded reads `intersections.front()` and
`intersections[1]` of `generateHatch` are in bounds whenever at least two of
the four edge lines are non-parallel (within EPS) to the hatch line — then at
least two intersections are collected and, whenever the 4-to-2 reduction
completes, the candidate list still has at least two elements.  With zero
collected, the `front()` read is out of bounds (`ub`); with exactly one
collected, the `front()` read is in bounds and the `[1]` read is out of
bounds exactly when the single candidate lies in some edge. -/
theorem C9_reads_in_bounds_amended :
    (∀ (segs : List Segment) (hn : Vector) (pt : Point) (l : List Point),
      2 ≤ nonParallelCount segs hn →
      reduce4 (collectIntersections segs (Line.ofNorm hn pt)) = some l →
      2 ≤ l.length) ∧
    (∀ (segs : List Segment) (hn : Vector) (pt : Point),
      nonParallelCount segs hn = 0 →
      collectIntersections segs (Line.ofNorm hn pt) = [] ∧
      probe segs hn pt = .ub) ∧
    (∀ (segs : List Segment) (hn : Vector) (pt : Point),
      nonParallelCount segs hn = 1 →
      ∃ p, collectIntersections segs (Line.ofNorm hn pt) = [p] ∧
        (probe segs hn pt = .ub ↔ containsAny segs p = true)) := by
  refine ⟨?_, ?_, ?_⟩
  · intro segs hn pt l h2 hr
    have hC := collect_length segs hn pt
    by_cases hlen : (collectIntersections segs (Line.ofNorm hn pt)).length = 4
    · unfold reduce4 at hr
      rw [if_pos hlen] at hr
      cases hscan : (farthestScan (collectIntersections segs (Line.ofNorm hn pt))).2 with
      | none => rw [hscan] at hr; exact Option.noConfusion hr
      | some ij =>
        obtain ⟨f1, f2⟩ := ij
        rw [hscan] at hr
        have hmem := farthestScan_res_mem _ _ hscan
        have hb : f1 < f2 ∧ f2 ≤ 3 := by
          have hall : ∀ p ∈ scanPairs, p.1 < p.2 ∧ p.2 ≤ 3 := by decide
          exact hall (f1, f2) hmem
        simp only [Option.some.injEq] at hr
        subst hr
        have h2a : ((collectIntersections segs (Line.ofNorm hn pt)).eraseIdx f2).length = 3 := by
          rw [List.length_eraseIdx_of_lt (by rw [hlen]; omega), hlen]
        have h1a : (((collectIntersections segs (Line.ofNorm hn pt)).eraseIdx f2).eraseIdx f1).length = 2 := by
          rw [List.length_eraseIdx_of_lt (by rw [h2a]; omega), h2a]
        omega
    · unfold reduce4 at hr
      rw [if_neg hlen] at hr
      simp only [Option.some.injEq] at hr
      subst hr
      omega
  · intro segs hn pt h0
    have hC := collect_length segs hn pt
    rw [h0] at hC
    have hnil : collectIntersections segs (Line.ofNorm hn pt) = [] :=
      List.length_eq_zero.mp hC
    refine ⟨hnil, ?_⟩
    unfold probe reduce4
    rw [hnil]
    rfl
  · intro segs hn pt h1
    have hC := collect_length segs hn pt
    rw [h1] at hC
    obtain ⟨p, hp⟩ := List.length_eq_one.mp hC
    refine ⟨p, hp, ?_⟩
    unfold probe reduce4
    rw [hp]
    cases hca : containsAny segs p <;> simp [hca]

/-- Witness for C9 amended: the in-bounds part applied to the square (two
edges non-parallel), and the zero-collected part applied to the fully
collinear degenerate quadrilateral, where the `front()` read is out of
bounds. -/
theorem C9_reads_in_bounds_amended_witness :
    (2 ≤ ([(⟨0, 0⟩ : Point), ⟨10, 0⟩]).length) ∧
    (collectIntersections collinearQuad.toSegments (Line.ofNorm ⟨0, 1⟩ ⟨0, 0⟩) = [] ∧
     probe collinearQuad.toSegments ⟨0, 1⟩ ⟨0, 0⟩ = .ub) :=
  ⟨C9_reads_in_bounds_amended.1 squareTen.toSegments ⟨0, 5⟩ ⟨0, 0⟩
      [⟨0, 0⟩, ⟨10, 0⟩] (by with_unfolding_all decide)
      (by with_unfolding_all decide),
   C9_reads_in_bounds_amended.2.1 collinearQuad.toSegments ⟨0, 1⟩ ⟨0, 0⟩
      (by with_unfolding_all decide)⟩

/-- C10: in the 4-intersection reduction, whenever some pairwise squared
distance among the four points is strictly positive, the strict `<` scan
assigns both indices: the final pair `(farthest1, farthest2)` has
`farthest1 < farthest2 ≤ 3`, is the FIRST pair (in the nested-loop visit
order `scanPairs`) attaining the maximal pairwise squared distance (all
earlier pairs are strictly smaller, all later ones no larger), and erasing
index `farthest2` then `farthest1` removes exactly that pair, leaving the two
other ("middle") points.  If all pairwise distances are zero the indices are
never assigned — the scan result is `none` and the reduction's erases read
uninitialized values (`reduce4` is `none`). -/
theorem C10_farthest_pair_reduction (P0 P1 P2 P3 : Point) :
    ((∃ ij ∈ scanPairs, 0 < pairDist [P0, P1, P2, P3] ij) →
      ∃ f1 f2 L1 L2,
        (farthestScan [P0, P1, P2, P3]).2 = some (f1, f2) ∧
        f1 < f2 ∧ f2 ≤ 3 ∧
        scanPairs = L1 ++ (f1, f2) :: L2 ∧
        (∀ ij ∈ L1,
          pairDist [P0, P1, P2, P3] ij < pairDist [P0, P1, P2, P3] (f1, f2)) ∧
        (∀ ij ∈ L2,
          pairDist [P0, P1, P2, P3] ij ≤ pairDist [P0, P1, P2, P3] (f1, f2)) ∧
        reduce4 [P0, P1, P2, P3] =
          some (([P0, P1, P2, P3].eraseIdx f2).eraseIdx f1) ∧
        ([P0, P1, P2, P3].eraseIdx f2).eraseIdx f1 =
          ((List.range 4).filter (fun k => decide (k ≠ f1) && decide (k ≠ f2))).map
            (fun k => [P0, P1, P2, P3].getD k ⟨0, 0⟩)) ∧
    ((∀ ij ∈ scanPairs, pairDist [P0, P1, P2, P3] ij = 0) →
      (farthestScan [P0, P1, P2, P3]).2 = none ∧
      reduce4 [P0, P1, P2, P3] = none) := by
  constructor
  · intro hex
    obtain ⟨L1, pf, L2, hsplit, hfold, hlt, hle, hm⟩ :=
      foldl_scanStep_first_max [P0, P1, P2, P3] scanPairs 0 none hex
    obtain ⟨f1, f2⟩ := pf
    have hmem : (f1, f2) ∈ scanPairs := by
      rw [hsplit]; simp
    have hscan : (farthestScan [P0, P1, P2, P3]).2 = some (f1, f2) := by
      unfold farthestScan
      rw [hfold]
    have hbounds : f1 < f2 ∧ f2 ≤ 3 := by
      have hall : ∀ ij ∈ scanPairs, ij.1 < ij.2 ∧ ij.2 ≤ 3 := by decide
      exact hall (f1, f2) hmem
    refine ⟨f1, f2, L1, L2, hscan, hbounds.1, hbounds.2, hsplit, hlt, hle, ?_, ?_⟩
    · unfold reduce4
      rw [if_pos (by rfl), hscan]
    · simp only [scanPairs, List.mem_cons, List.not_mem_nil, or_false,
        Prod.mk.injEq] at hmem
      rcases hmem with ⟨h1, h2⟩ | ⟨h1, h2⟩ | ⟨h1, h2⟩ | ⟨h1, h2⟩ | ⟨h1, h2⟩ | ⟨h1, h2⟩ <;>
        subst h1 <;> subst h2 <;> rfl
  · intro hz
    have hfold := foldl_scanStep_of_le [P0, P1, P2, P3] scanPairs 0 none
      (fun ij hij => le_of_eq (hz ij hij))
    have hscan : (farthestScan [P0, P1, P2, P3]).2 = none := by
      unfold farthestScan
      rw [hfold]
    refine ⟨hscan, ?_⟩
    unfold reduce4
    rw [if_pos (by rfl), hscan]

/-- Witness for C10: the assigned case at four collinear points (0,0), (1,0),
(2,0), (3,0) — the farthest pair is (0, 3) and the two middle points remain —
and the never-assigned case at four coincident points (5,5). -/
theorem C10_farthest_pair_reduction_witness :
    (∃ f1 f2 L1 L2,
        (farthestScan [(⟨0, 0⟩ : Point), ⟨1, 0⟩, ⟨2, 0⟩, ⟨3, 0⟩]).2 = some (f1, f2) ∧
        f1 < f2 ∧ f2 ≤ 3 ∧
        scanPairs = L1 ++ (f1, f2) :: L2 ∧
        (∀ ij ∈ L1,
          pairDist [⟨0, 0⟩, ⟨1, 0⟩, ⟨2, 0⟩, ⟨3, 0⟩] ij <
            pairDist [⟨0, 0⟩, ⟨1, 0⟩, ⟨2, 0⟩, ⟨3, 0⟩] (f1, f2)) ∧
        (∀ ij ∈ L2,
          pairDist [⟨0, 0⟩, ⟨1, 0⟩, ⟨2, 0⟩, ⟨3, 0⟩] ij ≤
            pairDist [⟨0, 0⟩, ⟨1, 0⟩, ⟨2, 0⟩, ⟨3, 0⟩] (f1, f2)) ∧
        reduce4 [⟨0, 0⟩, ⟨1, 0⟩, ⟨2, 0⟩, ⟨3, 0⟩] =
          some (([(⟨0, 0⟩ : Point), ⟨1, 0⟩, ⟨2, 0⟩, ⟨3, 0⟩].eraseIdx f2).eraseIdx f1) ∧
        ([(⟨0, 0⟩ : Point), ⟨1, 0⟩, ⟨2, 0⟩, ⟨3, 0⟩].eraseIdx f2).eraseIdx f1 =
          ((List.range 4).filter (fun k => decide (k ≠ f1) && decide (k ≠ f2))).map
            (fun k => [(⟨0, 0⟩ : Point), ⟨1, 0⟩, ⟨2, 0⟩, ⟨3, 0⟩].getD k ⟨0, 0⟩)) ∧
    ((farthestScan [(⟨5, 5⟩ : Point), ⟨5, 5⟩, ⟨5, 5⟩, ⟨5, 5⟩]).2 = none ∧
      reduce4 [(⟨5, 5⟩ : Point), ⟨5, 5⟩, ⟨5, 5⟩, ⟨5, 5⟩] = none) :=
  ⟨(C10_farthest_pair_reduction ⟨0, 0⟩ ⟨1, 0⟩ ⟨2, 0⟩ ⟨3, 0⟩).1
      ⟨(0, 3), by decide, by with_unfolding_all decide⟩,
   (C10_farthest_pair_reduction ⟨5, 5⟩ ⟨5, 5⟩ ⟨5, 5⟩ ⟨5, 5⟩).2
      (by with_unfolding_all decide)⟩

/-! ## Helper lemmas for the sweep termination development (claim C1) -/

namespace geometry

lemma dot_cross_identity (u v w : Vector) :
    dotProduct u v * dotProduct u w + crossProduct u v * crossProduct u w =
      dotProduct u u * dotProduct v w := by
  unfold dotProduct crossProduct
  ring

lemma distance2_eq_dot (a b : Point) :
    distance2 a b = dotProduct (Vector.ofPoints a b) (Vector.ofPoints a b) := by
  unfold distance2 dotProduct Vector.ofPoints
  ring

lemma isInSegment_uu_pos {p : Point} {s : Segment} (h : isInSegment p s = true) :
    0 < dotProduct (Vector.ofPoints s.a s.b) (Vector.ofPoints s.a s.b) := by
  simp only [isInSegment, Bool.and_eq_true, decide_eq_true_eq] at h
  obtain ⟨⟨_, hdot1⟩, _⟩ := h
  by_contra hle
  push_neg at hle
  have hx : (Vector.ofPoints s.a s.b).x = 0 := by
    have h1 : (Vector.ofPoints s.a s.b).x * (Vector.ofPoints s.a s.b).x = 0 := by
      unfold dotProduct at hle
      nlinarith [mul_self_nonneg (Vector.ofPoints s.a s.b).x,
        mul_self_nonneg (Vector.ofPoints s.a s.b).y]
    exact mul_self_eq_zero.mp h1
  have hy : (Vector.ofPoints s.a s.b).y = 0 := by
    have h1 : (Vector.ofPoints s.a s.b).y * (Vector.ofPoints s.a s.b).y = 0 := by
      unfold dotProduct at hle
      nlinarith [mul_self_nonneg (Vector.ofPoints s.a s.b).x,
        mul_self_nonneg (Vector.ofPoints s.a s.b).y]
    exact mul_self_eq_zero.mp h1
  unfold dotProduct at hdot1
  rw [hx, hy] at hdot1
  simp at hdot1

lemma isInSegment_dot_le (hn : Vector) {p : Point} {s : Segment}
    (h : isInSegment p s = true) : dotPoint hn p ≤ edgeBound hn s := by
  have huu := isInSegment_uu_pos h
  simp only [isInSegment, Bool.and_eq_true, decide_eq_true_eq] at h
  obtain ⟨⟨hcross, hdot1⟩, hdot2⟩ := h
  have hsum : dotProduct (Vector.ofPoints s.a s.b) (Vector.ofPoints s.a p) +
      dotProduct (Vector.ofPoints s.a s.b) (Vector.ofPoints p s.b) =
      dotProduct (Vector.ofPoints s.a s.b) (Vector.ofPoints s.a s.b) := by
    unfold dotProduct Vector.ofPoints
    ring
  have hid := dot_cross_identity (Vector.ofPoints s.a s.b) (Vector.ofPoints s.a p) hn
  have hap : dotProduct (Vector.ofPoints s.a p) hn =
      dotPoint hn p - dotPoint hn s.a := by
    unfold dotProduct dotPoint Vector.ofPoints
    ring
  have hb1 : dotProduct (Vector.ofPoints s.a s.b) (Vector.ofPoints s.a p) *
      dotProduct (Vector.ofPoints s.a s.b) hn ≤
      dotProduct (Vector.ofPoints s.a s.b) (Vector.ofPoints s.a s.b) *
        |dotProduct (Vector.ofPoints s.a s.b) hn| := by
    rcases abs_cases (dotProduct (Vector.ofPoints s.a s.b) hn) with ⟨he, _⟩ | ⟨he, _⟩ <;>
      nlinarith
  have hb2 : crossProduct (Vector.ofPoints s.a s.b) (Vector.ofPoints s.a p) *
      crossProduct (Vector.ofPoints s.a s.b) hn ≤
      EPS * |crossProduct (Vector.ofPoints s.a s.b) hn| := by
    calc crossProduct (Vector.ofPoints s.a s.b) (Vector.ofPoints s.a p) *
        crossProduct (Vector.ofPoints s.a s.b) hn ≤
        |crossProduct (Vector.ofPoints s.a s.b) (Vector.ofPoints s.a p) *
          crossProduct (Vector.ofPoints s.a s.b) hn| := le_abs_self _
      _ = |crossProduct (Vector.ofPoints s.a s.b) (Vector.ofPoints s.a p)| *
          |crossProduct (Vector.ofPoints s.a s.b) hn| := abs_mul _ _
      _ ≤ EPS * |crossProduct (Vector.ofPoints s.a s.b) hn| :=
          mul_le_mul_of_nonneg_right (le_of_lt hcross) (abs_nonneg _)
  have hcomb : dotProduct (Vector.ofPoints s.a s.b) (Vector.ofPoints s.a s.b) *
      (dotPoint hn p - dotPoint hn s.a) ≤
      dotProduct (Vector.ofPoints s.a s.b) (Vector.ofPoints s.a s.b) *
        |dotProduct (Vector.ofPoints s.a s.b) hn| +
        EPS * |crossProduct (Vector.ofPoints s.a s.b) hn| := by
    rw [hap] at hid
    linarith
  have h3 : dotPoint hn p - dotPoint hn s.a ≤
      (dotProduct (Vector.ofPoints s.a s.b) (Vector.ofPoints s.a s.b) *
        |dotProduct (Vector.ofPoints s.a s.b) hn| +
        EPS * |crossProduct (Vector.ofPoints s.a s.b) hn|) /
        dotProduct (Vector.ofPoints s.a s.b) (Vector.ofPoints s.a s.b) := by
    rw [le_div_iff₀ huu]
    nlinarith [hcomb]
  have h4 : (dotProduct (Vector.ofPoints s.a s.b) (Vector.ofPoints s.a s.b) *
      |dotProduct (Vector.ofPoints s.a s.b) hn| +
      EPS * |crossProduct (Vector.ofPoints s.a s.b) hn|) /
      dotProduct (Vector.ofPoints s.a s.b) (Vector.ofPoints s.a s.b) =
      |dotProduct (Vector.ofPoints s.a s.b) hn| +
      EPS * |crossProduct (Vector.ofPoints s.a s.b) hn| /
        dotProduct (Vector.ofPoints s.a s.b) (Vector.ofPoints s.a s.b) := by
    field_simp
    ring
  unfold edgeBound
  linarith

lemma le_hiBound_init (segs : List Segment) (hn : Vector) :
    ∀ init : ℚ, init ≤ hiBound segs hn init := by
  induction segs with
  | nil => intro init; exact le_refl _
  | cons s segs ih =>
    intro init
    unfold hiBound
    rw [List.foldl_cons]
    refine le_trans ?_ (ih _)
    by_cases hd : 0 < distance2 s.a s.b
    · rw [if_pos hd]; exact le_max_left _ _
    · rw [if_neg hd]

lemma edgeBound_le_hiBound (segs : List Segment) (hn : Vector) :
    ∀ (init : ℚ) (s : Segment), s ∈ segs → 0 < distance2 s.a s.b →
      edgeBound hn s ≤ hiBound segs hn init := by
  induction segs with
  | nil => intro init s hs _; simp at hs
  | cons t segs ih =>
    intro init s hs hd
    rcases List.mem_cons.mp hs with rfl | hs2
    · unfold hiBound
      rw [List.foldl_cons, if_pos hd]
      exact le_trans (le_max_right _ _) (le_hiBound_init segs hn _)
    · unfold hiBound
      rw [List.foldl_cons]
      exact ih _ s hs2 hd

lemma not_parallel_det_ne_zero (l1 l2 : Line)
    (h : isLinesSameOrParallel l1 l2 = false) :
    l1.a * l2.b - l2.a * l1.b ≠ 0 := by
  unfold isLinesSameOrParallel at h
  simp only [decide_eq_false_iff_not, not_lt] at h
  intro hz
  have hc : crossProduct (normOf l1) (normOf l2) = 0 := by
    unfold crossProduct normOf
    linarith
  rw [hc] at h
  norm_num [EPS] at h

lemma mem_collect_dot_eq (segs : List Segment) (hn : Vector) (pt : Point)
    (p : Point)
    (hmem : p ∈ collectIntersections segs (Line.ofNorm hn pt)) :
    dotPoint hn p = dotPoint hn pt := by
  unfold collectIntersections at hmem
  rw [List.mem_filterMap] at hmem
  obtain ⟨s, hs, hsome⟩ := hmem
  by_cases hpar : isLinesSameOrParallel s.line (Line.ofNorm hn pt) = true
  · rw [if_pos hpar] at hsome
    exact Option.noConfusion hsome
  · rw [if_neg hpar] at hsome
    have hdet := not_parallel_det_ne_zero s.line (Line.ofNorm hn pt)
      (Bool.not_eq_true _ ▸ hpar)
    have honline := (linesIntersection_on_lines s.line (Line.ofNorm hn pt) hdet).2
    simp only [Option.some.injEq] at hsome
    subst hsome
    unfold dotPoint
    unfold lineEval at honline
    unfold Line.ofNorm at honline ⊢
    dsimp at honline ⊢
    linarith

lemma reduce4_subset {pts l : List Point} (h : reduce4 pts = some l) : l ⊆ pts := by
  unfold reduce4 at h
  by_cases hlen : pts.length = 4
  · rw [if_pos hlen] at h
    cases hscan : (farthestScan pts).2 with
    | none => rw [hscan] at h; exact Option.noConfusion h
    | some ij =>
      obtain ⟨f1, f2⟩ := ij
      rw [hscan] at h
      simp only [Option.some.injEq] at h
      subst h
      exact fun x hx => (List.eraseIdx_sublist pts f2).subset
        ((List.eraseIdx_sublist (pts.eraseIdx f2) f1).subset hx)
  · rw [if_neg hlen] at h
    simp only [Option.some.injEq] at h
    subst h
    exact fun x hx => hx

lemma reduce4_some_length {pts l : List Point} (h : reduce4 pts = some l)
    (h2 : 2 ≤ pts.length) : 2 ≤ l.length := by
  unfold reduce4 at h
  by_cases hlen : pts.length = 4
  · rw [if_pos hlen] at h
    cases hscan : (farthestScan pts).2 with
    | none => rw [hscan] at h; exact Option.noConfusion h
    | some ij =>
      obtain ⟨f1, f2⟩ := ij
      rw [hscan] at h
      have hmem := farthestScan_res_mem _ _ hscan
      have hb : f1 < f2 ∧ f2 ≤ 3 := by
        have hall : ∀ q ∈ scanPairs, q.1 < q.2 ∧ q.2 ≤ 3 := by decide
        exact hall (f1, f2) hmem
      simp only [Option.some.injEq] at h
      subst h
      have h2a : (pts.eraseIdx f2).length = 3 := by
        rw [List.length_eraseIdx_of_lt (by omega), hlen]
      have h1a : ((pts.eraseIdx f2).eraseIdx f1).length = 2 := by
        rw [List.length_eraseIdx_of_lt (by rw [h2a]; omega), h2a]
      omega
  · rw [if_neg hlen] at h
    simp only [Option.some.injEq] at h
    subst h
    exact h2

lemma probe_hit_dot_le (segs : List Segment) (hn : Vector) (pt : Point)
    (p q : Point) (h : probe segs hn pt = .hit p q) (init : ℚ) :
    dotPoint hn pt ≤ hiBound segs hn init := by
  unfold probe at h
  cases hred : reduce4 (collectIntersections segs (Line.ofNorm hn pt)) with
  | none => rw [hred] at h; exact ProbeRes.noConfusion h
  | some l =>
    rw [hred] at h
    cases l with
    | nil => exact ProbeRes.noConfusion h
    | cons p0 ltail =>
      cases ltail with
      | nil =>
        cases hca : containsAny segs p0 <;> simp [hca] at h
      | cons q0 lrest =>
        cases hca : containsAny segs p0 with
        | false => simp [hca] at h
        | true =>
          simp only [hca, if_true, ProbeRes.hit.injEq] at h
          obtain ⟨hp0, hq0⟩ := h
          subst hp0
          obtain ⟨s, hs, hin⟩ := List.any_eq_true.mp hca
          have hmem : p0 ∈ collectIntersections segs (Line.ofNorm hn pt) :=
            reduce4_subset hred (by simp)
          have hdot := mem_collect_dot_eq segs hn pt p0 hmem
          have huu := isInSegment_uu_pos hin
          have hdist : 0 < distance2 s.a s.b := by
            rw [distance2_eq_dot]
            exact huu
          have hle := isInSegment_dot_le hn hin
          calc dotPoint hn pt = dotPoint hn p0 := hdot.symm
            _ ≤ edgeBound hn s := hle
            _ ≤ hiBound segs hn init := edgeBound_le_hiBound segs hn init s hs hdist

lemma ptAt_zero (start : Point) (v : Vector) : ptAt start v 0 = start := by
  unfold ptAt Point.add Vector.smul
  cases start
  simp

lemma ptAt_succ (start : Point) (v : Vector) (k : Nat) :
    (ptAt start v k).add v = ptAt start v (k + 1) := by
  unfold ptAt Point.add Vector.smul
  simp only [Point.mk.injEq]
  constructor <;> (push_cast; ring)

lemma ptAt_one (start : Point) (v : Vector) : start.add v = ptAt start v 1 := by
  unfold ptAt Point.add Vector.smul
  simp only [Point.mk.injEq]
  constructor <;> (push_cast; ring)

lemma dotPoint_ptAt (start : Point) (v : Vector) (k : Nat) :
    dotPoint v (ptAt start v k) = dotPoint v start + k * dotProduct v v := by
  unfold dotPoint ptAt Point.add Vector.smul dotProduct
  push_cast
  ring

lemma missIndex_pos (segs : List Segment) (v : Vector) (start : Point) :
    1 ≤ missIndex segs v start := by
  unfold missIndex
  omega

lemma probe_miss_beyond (segs : List Segment) (v : Vector) (start : Point)
    (hv : 0 < dotProduct v v) (k : Nat) (hk : missIndex segs v start ≤ k) :
    ∀ p q, probe segs v (ptAt start v k) ≠ .hit p q := by
  intro p q hhit
  have hle := probe_hit_dot_le segs v (ptAt start v k) p q hhit (dotPoint v start)
  rw [dotPoint_ptAt] at hle
  unfold missIndex at hk
  have hX : (0 : ℚ) ≤ (hiBound segs v (dotPoint v start) - dotPoint v start) /
      dotProduct v v :=
    div_nonneg (by linarith [le_hiBound_init segs v (dotPoint v start)]) (le_of_lt hv)
  have hceil := Int.le_ceil ((hiBound segs v (dotPoint v start) - dotPoint v start) /
      dotProduct v v)
  have htn : ((⌈(hiBound segs v (dotPoint v start) - dotPoint v start) /
      dotProduct v v⌉.toNat : ℕ) : ℚ) =
      ((⌈(hiBound segs v (dotPoint v start) - dotPoint v start) /
        dotProduct v v⌉ : ℤ) : ℚ) := by
    exact_mod_cast congrArg (fun z : ℤ => (z : ℚ))
      (Int.toNat_of_nonneg (Int.ceil_nonneg hX))
  have hkQ : ((⌈(hiBound segs v (dotPoint v start) - dotPoint v start) /
      dotProduct v v⌉.toNat + 1 : ℕ) : ℚ) ≤ (k : ℚ) := by
    exact_mod_cast Nat.cast_le.mpr hk
  push_cast at hkQ
  rw [htn] at hkQ
  have hmul : (hiBound segs v (dotPoint v start) - dotPoint v start) /
      dotProduct v v * dotProduct v v =
      hiBound segs v (dotPoint v start) - dotPoint v start :=
    div_mul_cancel₀ _ (ne_of_gt hv)
  nlinarith [hceil, hkQ, hle, hmul, hv]

lemma lineEval_through (a b q : Point) :
    lineEval (Line.through a b) q =
      crossProduct (Vector.ofPoints a b) (Vector.ofPoints a q) := by
  unfold lineEval Line.through crossProduct Vector.ofPoints
  ring

lemma eq_of_two_crosses (u w z : Vector) (hu : crossProduct u z = 0)
    (hw : crossProduct w z = 0) (huw : crossProduct u w ≠ 0) : z = ⟨0, 0⟩ := by
  unfold crossProduct at hu hw huw
  cases z with
  | mk zx zy =>
    simp only [Vector.mk.injEq]
    constructor
    · have h1 : (u.x * w.y - u.y * w.x) * zx = 0 := by
        linear_combination w.x * hu - u.x * hw
      exact (mul_eq_zero.mp h1).resolve_left huw
    · have h2 : (u.x * w.y - u.y * w.x) * zy = 0 := by
        linear_combination w.y * hu - u.y * hw
      exact (mul_eq_zero.mp h2).resolve_left huw

lemma on_two_lines_eq (pa pb pc q : Point)
    (h1 : lineEval (Line.through pa pb) q = 0)
    (h2 : lineEval (Line.through pb pc) q = 0)
    (hcv : crossProduct (Vector.ofPoints pa pb) (Vector.ofPoints pb pc) ≠ 0) :
    q = pb := by
  have haq : crossProduct (Vector.ofPoints pa pb) (Vector.ofPoints pa q) = 0 := by
    rw [← lineEval_through]
    exact h1
  have hu : crossProduct (Vector.ofPoints pa pb) (Vector.ofPoints pb q) = 0 := by
    unfold crossProduct Vector.ofPoints at haq ⊢
    linear_combination haq
  have hw : crossProduct (Vector.ofPoints pb pc) (Vector.ofPoints pb q) = 0 := by
    rw [← lineEval_through]
    exact h2
  have hz := eq_of_two_crosses _ _ _ hu hw hcv
  unfold Vector.ofPoints at hz
  simp only [Vector.mk.injEq] at hz
  cases q
  cases pb
  simp only [Point.mk.injEq]
  dsimp at hz
  constructor <;> linarith [hz.1, hz.2]

lemma strictlyConvex_facts (r : Rectangle) (h : strictlyConvex r = true) :
    crossProduct (Vector.ofPoints r.p0 r.p1) (Vector.ofPoints r.p1 r.p2) ≠ 0 ∧
    crossProduct (Vector.ofPoints r.p1 r.p2) (Vector.ofPoints r.p2 r.p3) ≠ 0 ∧
    r.p1 ≠ r.p2 := by
  unfold strictlyConvex at h
  simp only [Bool.or_eq_true, Bool.and_eq_true, decide_eq_true_eq] at h
  have hc : crossProduct (Vector.ofPoints r.p0 r.p1) (Vector.ofPoints r.p1 r.p2) ≠ 0 ∧
      crossProduct (Vector.ofPoints r.p1 r.p2) (Vector.ofPoints r.p2 r.p3) ≠ 0 := by
    rcases h with ⟨⟨⟨h1, h2⟩, _⟩, _⟩ | ⟨⟨⟨h1, h2⟩, _⟩, _⟩
    · exact ⟨ne_of_gt h1, ne_of_gt h2⟩
    · exact ⟨ne_of_lt h1, ne_of_lt h2⟩
  refine ⟨hc.1, hc.2, ?_⟩
  intro heq
  apply hc.2
  rw [heq]
  unfold crossProduct Vector.ofPoints
  ring

lemma collect_four (r : Rectangle) (hn : Vector) (pt : Point)
    (hlen : (collectIntersections r.toSegments (Line.ofNorm hn pt)).length = 4) :
    isLinesSameOrParallel (Line.through r.p0 r.p3) (Line.ofNorm hn pt) = false ∧
    isLinesSameOrParallel (Line.through r.p0 r.p1) (Line.ofNorm hn pt) = false ∧
    isLinesSameOrParallel (Line.through r.p1 r.p2) (Line.ofNorm hn pt) = false ∧
    isLinesSameOrParallel (Line.through r.p2 r.p3) (Line.ofNorm hn pt) = false ∧
    collectIntersections r.toSegments (Line.ofNorm hn pt) =
      [linesIntersection (Line.through r.p0 r.p3) (Line.ofNorm hn pt),
       linesIntersection (Line.through r.p0 r.p1) (Line.ofNorm hn pt),
       linesIntersection (Line.through r.p1 r.p2) (Line.ofNorm hn pt),
       linesIntersection (Line.through r.p2 r.p3) (Line.ofNorm hn pt)] := by
  unfold collectIntersections Rectangle.toSegments Segment.mk' at hlen ⊢
  by_cases h0 : isLinesSameOrParallel (Line.through r.p0 r.p3) (Line.ofNorm hn pt) = true <;>
    by_cases h1 : isLinesSameOrParallel (Line.through r.p0 r.p1) (Line.ofNorm hn pt) = true <;>
      by_cases h2 : isLinesSameOrParallel (Line.through r.p1 r.p2) (Line.ofNorm hn pt) = true <;>
        by_cases h3 : isLinesSameOrParallel (Line.through r.p2 r.p3) (Line.ofNorm hn pt) = true <;>
          simp_all [List.filterMap_cons]

lemma probe_ne_ub (r : Rectangle) (hn : Vector) (pt : Point)
    (hcv : strictlyConvex r = true)
    (hcnt : 2 ≤ nonParallelCount r.toSegments hn) :
    probe r.toSegments hn pt ≠ .ub := by
  intro hub
  have hC := collect_length r.toSegments hn pt
  unfold probe at hub
  cases hred : reduce4 (collectIntersections r.toSegments (Line.ofNorm hn pt)) with
  | some l =>
    rw [hred] at hub
    have hl2 : 2 ≤ l.length := reduce4_some_length hred (by omega)
    cases l with
    | nil => simp at hl2
    | cons p0 ltail =>
      cases ltail with
      | nil => simp at hl2
      | cons q0 lrest =>
        cases hca : containsAny r.toSegments p0 <;> simp [hca] at hub
  | none =>
    unfold reduce4 at hred
    by_cases hlen : (collectIntersections r.toSegments (Line.ofNorm hn pt)).length = 4
    · rw [if_pos hlen] at hred
      cases hscan : (farthestScan (collectIntersections r.toSegments (Line.ofNorm hn pt))).2 with
      | some ij =>
        obtain ⟨f1, f2⟩ := ij
        rw [hscan] at hred
        exact Option.noConfusion hred
      | none =>
        have hall := foldl_scanStep_none
          (collectIntersections r.toSegments (Line.ofNorm hn pt)) scanPairs 0 hscan
        obtain ⟨hp0, hp1, hp2, hp3, hCeq⟩ := collect_four r hn pt hlen
        have hd12 : pairDist (collectIntersections r.toSegments (Line.ofNorm hn pt)) (1, 2) ≤ 0 :=
          hall (1, 2) (by decide)
        have hd23 : pairDist (collectIntersections r.toSegments (Line.ofNorm hn pt)) (2, 3) ≤ 0 :=
          hall (2, 3) (by decide)
        rw [hCeq] at hd12 hd23
        unfold pairDist at hd12 hd23
        dsimp [List.getD] at hd12 hd23
        have heq12 : linesIntersection (Line.through r.p0 r.p1) (Line.ofNorm hn pt) =
            linesIntersection (Line.through r.p1 r.p2) (Line.ofNorm hn pt) :=
          distance2_eq_zero (le_antisymm hd12 (distance2_nonneg _ _))
        have heq23 : linesIntersection (Line.through r.p1 r.p2) (Line.ofNorm hn pt) =
            linesIntersection (Line.through r.p2 r.p3) (Line.ofNorm hn pt) :=
          distance2_eq_zero (le_antisymm hd23 (distance2_nonneg _ _))
        obtain ⟨hcv01, hcv12, hne12⟩ := strictlyConvex_facts r hcv
        have hon1 := (linesIntersection_on_lines (Line.through r.p0 r.p1)
          (Line.ofNorm hn pt) (not_parallel_det_ne_zero _ _ (Bool.not_eq_true _ ▸ hp1))).1
        have hon2 := (linesIntersection_on_lines (Line.through r.p1 r.p2)
          (Line.ofNorm hn pt) (not_parallel_det_ne_zero _ _ (Bool.not_eq_true _ ▸ hp2))).1
        have hon3 := (linesIntersection_on_lines (Line.through r.p2 r.p3)
          (Line.ofNorm hn pt) (not_parallel_det_ne_zero _ _ (Bool.not_eq_true _ ▸ hp3))).1
        have hq1 : linesIntersection (Line.through r.p1 r.p2) (Line.ofNorm hn pt) = r.p1 := by
          apply on_two_lines_eq r.p0 r.p1 r.p2 _ (by rw [← heq12]; exact hon1) _ hcv01
          exact hon2
        have hq2 : linesIntersection (Line.through r.p1 r.p2) (Line.ofNorm hn pt) = r.p2 := by
          apply on_two_lines_eq r.p1 r.p2 r.p3 _ hon2 _ hcv12
          rw [heq23]
          exact hon3
        exact hne12 (hq1 ▸ hq2)
    · rw [if_neg hlen] at hred
      exact Option.noConfusion hred

lemma sweepRun_done_of_stopped (segs : List Segment) (start : Point)
    (n : Nat) (s : SweepState) (hf : s.forward = false) (hc : s.isContinue = false) :
    sweepRun segs start n s = .done s.res := by
  cases n <;> simp [sweepRun, hf, hc]

lemma normOf_ofNorm (v : Vector) (p : Point) : normOf (Line.ofNorm v p) = v := rfl

lemma nonParallelCount_neg (segs : List Segment) (hn : Vector) :
    nonParallelCount segs (hn.smul (-1)) = nonParallelCount segs hn := by
  unfold nonParallelCount
  apply List.countP_congr
  intro s _
  have hcr : crossProduct (normOf s.line) (hn.smul (-1)) =
      -(crossProduct (normOf s.line) hn) := by
    unfold crossProduct Vector.smul
    dsimp
    ring
  simp only [isLinesSameOrParallel, normOf_ofNorm, hcr, abs_neg]

lemma dotProduct_smul_neg (v : Vector) :
    dotProduct (v.smul (-1)) (v.smul (-1)) = dotProduct v v := by
  unfold dotProduct Vector.smul
  dsimp
  ring

lemma sweepRun_backward (r : Rectangle) (v : Vector)
    (hcv : strictlyConvex r = true)
    (hcnt : 2 ≤ nonParallelCount r.toSegments v)
    (hv : 0 < dotProduct v v) :
    ∀ fuel m (res : List Segment), 1 ≤ fuel →
      missIndex r.toSegments v r.p0 + 2 ≤ fuel + m → 1 ≤ m →
      ∃ out, sweepRun r.toSegments r.p0 fuel
        ⟨ptAt r.p0 v m, v, false, true, false, res⟩ = .done out := by
  intro fuel
  induction fuel with
  | zero => intro m res h1 _ _; omega
  | succ n ih =>
    intro m res _ hfm hm
    rw [sweepRun]
    simp only [Bool.false_or, if_true]
    cases hpr : probe r.toSegments v (ptAt r.p0 v m) with
    | ub => exact absurd hpr (probe_ne_ub r v _ hcv hcnt)
    | miss =>
      unfold sweepStep
      rw [hpr]
      simp only [Bool.false_and, Bool.false_eq_true, if_false]
      refine ⟨res, ?_⟩
      exact sweepRun_done_of_stopped _ _ n _ rfl rfl
    | hit p q =>
      unfold sweepStep
      rw [hpr]
      have hmiss : m < missIndex r.toSegments v r.p0 := by
        by_contra hge
        push_neg at hge
        exact probe_miss_beyond r.toSegments v r.p0 hv m hge p q hpr
      simp only
      rw [ptAt_succ]
      exact ih (m + 1) (res ++ [Segment.mk' p q]) (by omega) (by omega) (by omega)

lemma sweepRun_forward (r : Rectangle) (hn : Vector)
    (hcv : strictlyConvex r = true)
    (hcnt : 2 ≤ nonParallelCount r.toSegments hn)
    (hv : 0 < dotProduct hn hn) :
    ∀ fuel k (res : List Segment) (b : Bool), 1 ≤ fuel →
      missIndex r.toSegments hn r.p0 + missIndex r.toSegments (hn.smul (-1)) r.p0 + 4 ≤
        fuel + min k (missIndex r.toSegments hn r.p0 + 1) →
      ∃ out, sweepRun r.toSegments r.p0 fuel
        ⟨ptAt r.p0 hn k, hn, true, b, decide (k = 0), res⟩ = .done out := by
  intro fuel
  induction fuel with
  | zero => intro k res b h1 _; omega
  | succ n ih =>
    intro k res b _ hfm
    have hKf := missIndex_pos r.toSegments hn r.p0
    have hKb := missIndex_pos r.toSegments (hn.smul (-1)) r.p0
    rw [sweepRun]
    simp only [Bool.true_or, if_true]
    cases hpr : probe r.toSegments hn (ptAt r.p0 hn k) with
    | ub => exact absurd hpr (probe_ne_ub r hn _ hcv hcnt)
    | hit p q =>
      have hmiss : k < missIndex r.toSegments hn r.p0 := by
        by_contra hge
        push_neg at hge
        exact probe_miss_beyond r.toSegments hn r.p0 hv k hge p q hpr
      unfold sweepStep
      rw [hpr]
      simp only
      rw [ptAt_succ]
      exact ih (k + 1) (res ++ [Segment.mk' p q]) true (by omega) (by omega)
    | miss =>
      cases k with
      | zero =>
        unfold sweepStep
        rw [hpr]
        simp only [decide_True, Bool.not_true, Bool.and_false, Bool.false_eq_true,
          if_false]
        rw [ptAt_succ]
        exact ih 1 res false (by omega) (by omega)
      | succ j =>
        unfold sweepStep
        rw [hpr]
        simp only [Nat.succ_ne_zero, decide_eq_false_iff_not, not_false_eq_true,
          decide_False, Bool.not_false, Bool.and_true, if_true]
        rw [ptAt_one]
        have hcnt2 : 2 ≤ nonParallelCount r.toSegments (hn.smul (-1)) := by
          rw [nonParallelCount_neg]
          exact hcnt
        have hv2 : 0 < dotProduct (hn.smul (-1)) (hn.smul (-1)) := by
          rw [dotProduct_smul_neg]
          exact hv
        exact sweepRun_backward r (hn.smul (-1)) hcv hcnt2 hv2 n 1 res
          (by omega) (by omega) (by omega)

end geometry

/-- C1 counterexample: `sliverQuad` is a strictly convex quadrilateral (all
four consecutive edge cross products are negative), yet with hatch normal
`(0, 1)` — i.e. angle 0 and step 1, a step > 0 — every edge line is
EPS-parallel to the hatch line, the very first probe collects NO
intersections, the source reads `intersections.front()` of an empty vector,
and the sweep crashes instead of terminating with a finite sequence.  So
"for every convex quadrilateral and every step > 0, generateHatch terminates
and returns a finite sequence" is false on the code. -/
theorem C1_termination_counterexample :
    strictlyConvex sliverQuad = true ∧
    probe sliverQuad.toSegments ⟨0, 1⟩ sliverQuad.p0 = .ub ∧
    generateHatch sliverQuad ⟨0, 1⟩ 5 = .oobCrash := by
  refine ⟨?_, ?_, ?_⟩ <;> with_unfolding_all decide

/-- C1 amended: for every strictly convex quadrilateral at least two of whose
four edge lines are non-parallel (within EPS) to the hatch line, and every
nonzero hatch normal (in particular any step > 0), the sweep loop of
`generateHatch` terminates: with the explicitly computed fuel
`fuelBound` — essentially (max extent / step) + O(1) iterations per sweep
direction — the loop reaches its exit condition and returns a finite
sequence of segments, with no out-of-bounds access and no fuel exhaustion. -/
theorem C1_termination_amended (r : Rectangle) (hn : Vector)
    (hv : 0 < dotProduct hn hn) (hcv : strictlyConvex r = true)
    (hcnt : 2 ≤ nonParallelCount r.toSegments hn) :
    ∃ out, generateHatch r hn (fuelBound r.toSegments hn r.p0) = .done out := by
  unfold generateHatch initState
  have hstate : (⟨r.p0, hn, true, false, true, []⟩ : SweepState) =
      ⟨ptAt r.p0 hn 0, hn, true, false, decide (0 = 0), []⟩ := by
    rw [ptAt_zero]
    rfl
  rw [hstate]
  apply sweepRun_forward r hn hcv hcnt hv (fuelBound r.toSegments hn r.p0) 0 [] false
  · unfold fuelBound
    omega
  · unfold fuelBound
    omega

/-- Witness for C1 amended at the square with hatch normal (0, 5). -/
theorem C1_termination_amended_witness :
    (0 : ℚ) < dotProduct ⟨0, 5⟩ ⟨0, 5⟩ ∧
    strictlyConvex squareTen = true ∧
    2 ≤ nonParallelCount squareTen.toSegments ⟨0, 5⟩ ∧
    ∃ out, generateHatch squareTen ⟨0, 5⟩
      (fuelBound squareTen.toSegments ⟨0, 5⟩ squareTen.p0) = .done out :=
  ⟨by with_unfolding_all decide, by with_unfolding_all decide,
   by with_unfolding_all decide,
   C1_termination_amended squareTen ⟨0, 5⟩ (by with_unfolding_all decide)
     (by with_unfolding_all decide) (by with_unfolding_all decide)⟩
